import Mathlib

/-!
Verification development for the "Python vs. Pumpkins" snake game
(`main.py`).  The definitions below are a shallow embedding of the
game's core logic: the fixed-step clock, the snake step algorithm,
food placement by rejection sampling, the leaderboard store
(qualify / commit / save / load) and the name-entry commit.

Python integers are modelled by `Int` (or `Nat` where the source value
is provably non-negative), Python strings by `List Char`, Python lists
by `List`, and the random number generator by an explicit list of
draws.  Python's in-place stable `list.sort(key=..., reverse=True)` is
modelled by a stable descending insertion sort (stability plus the
comparator determine the sorted output uniquely, so any stable
descending sort denotes the same function).
-/

namespace Pumpkin

/-! ### Configuration constants (main.py lines 11-44) -/

def SCREEN_W : Nat := 1024
def SCREEN_H : Nat := 600
def TILE : Nat := 48
def GRID_W : Nat := SCREEN_W / TILE   -- 21
def GRID_H : Nat := SCREEN_H / TILE   -- 12
def MAX_SCORES : Nat := 10
def STEP_MS : Nat := 150
def START_LEN : Nat := 4

/-! ### Grid cells and directions.
A cell or direction is a Python tuple of two ints. -/

abbrev Cell : Type := Int × Int

/-- `0 <= x < GRID_W and 0 <= y < GRID_H`: the cell is on the board. -/
def inGrid (c : Cell) : Prop :=
  0 ≤ c.1 ∧ c.1 < (GRID_W : Int) ∧ 0 ≤ c.2 ∧ c.2 < (GRID_H : Int)

instance (c : Cell) : Decidable (inGrid c) := by
  unfold inGrid; infer_instance

/-- All cells of the board, row-major. -/
def allCells : List Cell :=
  (List.range GRID_W).flatMap fun x =>
    (List.range GRID_H).map fun y => (Int.ofNat x, Int.ofNat y)

/-! ### `random_empty_cell` (main.py lines 63-67).

    def random_empty_cell(blocked):
        while True:
            c = (random.randrange(0, GRID_W), random.randrange(0, GRID_H))
            if c not in blocked:
                return c

The unbounded `while True` loop is modelled by an explicit list of
random draws (each draw produced by `randrange` is an in-grid cell);
`none` means the loop did not return within the supplied draws —
in particular, if it returns `none` for EVERY draw list, the Python
loop never terminates. -/

def random_empty_cell (blocked : List Cell) : List Cell → Option Cell
  | [] => none
  | c :: rest => if c ∈ blocked then random_empty_cell blocked rest else some c

/-! ### Game state and the tick algorithm (`SnakeGame.step`, lines 308-329) -/

structure GState where
  snake : List Cell
  dir : Cell
  next_dir : Cell
  food : Cell
  score : Nat
  grow : Nat
deriving DecidableEq, Repr

/-- Outcome of one call to `SnakeGame.step`:
`collided` models the `self._to_gameover(); return` paths,
`outOfDraws` means food relocation did not find a free cell within the
supplied random draws, and `ok` carries the mutated state. -/
inductive StepRes
  | collided
  | outOfDraws
  | ok (g : GState)
deriving DecidableEq, Repr

/-- Shallow embedding of `SnakeGame.step` (main.py lines 308-329).

    self.dir = self.next_dir
    head_x, head_y = self.snake[0]
    nx, ny = head_x + self.dir[0], head_y + self.dir[1]
    if nx < 0 or nx >= GRID_W or ny < 0 or ny >= GRID_H:
        self._to_gameover(); return
    new_head = (nx, ny)
    if new_head in self.snake:
        self._to_gameover(); return
    self.snake.insert(0, new_head)
    if new_head == self.food:
        self.score += 1
        self.grow += 1
        blocked = set(self.snake)
        self.food = random_empty_cell(blocked)
    else:
        if self.grow > 0:
            self.grow -= 1
        else:
            self.snake.pop()

The empty-snake match arm is unreachable in the program (the snake
always has at least `START_LEN` cells); it is mapped to `collided`
only to make the function total. -/
def stepG (draws : List Cell) (g : GState) : StepRes :=
  let d := g.next_dir
  match g.snake with
  | [] => StepRes.collided
  | head :: _ =>
    let nx : Int := head.1 + d.1
    let ny : Int := head.2 + d.2
    if nx < 0 ∨ (GRID_W : Int) ≤ nx ∨ ny < 0 ∨ (GRID_H : Int) ≤ ny then
      StepRes.collided
    else
      let new_head : Cell := (nx, ny)
      if new_head ∈ g.snake then
        StepRes.collided
      else
        let snake1 := new_head :: g.snake
        if new_head = g.food then
          match random_empty_cell snake1 draws with
          | none => StepRes.outOfDraws
          | some f =>
            StepRes.ok { g with snake := snake1, dir := d,
                                score := g.score + 1, grow := g.grow + 1,
                                food := f }
        else if 0 < g.grow then
          StepRes.ok { g with snake := snake1, dir := d, grow := g.grow - 1 }
        else
          StepRes.ok { g with snake := snake1.dropLast, dir := d }

/-- The new head cell `(head + next_dir)` that `step` would compute. -/
def newHead (g : GState) : Cell :=
  match g.snake with
  | [] => (0, 0)
  | head :: _ => (head.1 + g.next_dir.1, head.2 + g.next_dir.2)

/-- Shallow embedding of `SnakeGame.reset` (main.py lines 224-241),
restricted to the simulation fields.

    cx, cy = GRID_W // 2, GRID_H // 2
    self.snake = [(cx - i, cy) for i in range(START_LEN)]
    self.dir = (1, 0)
    self.next_dir = self.dir
    self.grow = 0
    self.score = 0
    blocked = set(self.snake)
    self.food = random_empty_cell(blocked)
    self.accum = 0
-/
def reset (draws : List Cell) : Option GState :=
  let cx : Int := (GRID_W : Int) / 2
  let cy : Int := (GRID_H : Int) / 2
  let snake0 : List Cell := (List.range START_LEN).map fun i => (cx - Int.ofNat i, cy)
  match random_empty_cell snake0 draws with
  | none => none
  | some f =>
    some { snake := snake0, dir := (1, 0), next_dir := (1, 0),
           food := f, score := 0, grow := 0 }

/-! ### Fixed-step clock (main.py lines 732-735).

    self.accum += dt
    while self.accum >= STEP_MS:
        self.step()
        self.accum -= STEP_MS

`clock_ticks acc` returns the pair (number of `self.step()` calls the
while-loop performs, final value of `self.accum`) when entered with
`self.accum = acc` (i.e. the previous accumulator plus `dt`). -/

def clock_ticks (acc : Nat) : Nat × Nat :=
  if h : STEP_MS ≤ acc then
    let r := clock_ticks (acc - STEP_MS)
    (r.1 + 1, r.2)
  else
    (0, acc)
termination_by acc
decreasing_by
  exact Nat.sub_lt (Nat.lt_of_lt_of_le (by decide) h) (by decide)

theorem clock_ticks_eq (acc : Nat) :
    clock_ticks acc = (acc / STEP_MS, acc % STEP_MS) := by
  induction acc using Nat.strong_induction_on with
  | _ acc ih =>
    rw [clock_ticks]
    by_cases h : STEP_MS ≤ acc
    · rw [dif_pos h, ih (acc - STEP_MS)
        (Nat.sub_lt (Nat.lt_of_lt_of_le (by decide) h) (by decide))]
      rw [Nat.div_eq_sub_div (by decide) h, Nat.mod_eq_sub_mod h]
    · rw [dif_neg h]
      rw [Nat.div_eq_of_lt (Nat.lt_of_not_le h), Nat.mod_eq_of_lt (Nat.lt_of_not_le h)]

/-! ### Leaderboard entries.
A row of the highscore table: `{"name": ..., "score": ...}`.
Python strings are modelled as `List Char`, Python ints as `Int`. -/

structure LBEntry where
  name : List Char
  score : Int
deriving DecidableEq, Repr

/-- Insert `e` behind every leading element whose score is ≥ `e.score`
(so equal scores keep their relative order). -/
def insertDesc (e : LBEntry) : List LBEntry → List LBEntry
  | [] => [e]
  | x :: xs => if e.score ≤ x.score then x :: insertDesc e xs else e :: x :: xs

/-- Model of Python's stable in-place
`scores.sort(key=lambda x: x["score"], reverse=True)`:
a stable descending insertion sort.  Stability plus the comparator
determine the result of any stable sort uniquely, so this denotes the
same function as CPython's timsort with `reverse=True`. -/
def sortDesc (l : List LBEntry) : List LBEntry :=
  l.foldl (fun acc e => insertDesc e acc) []

/-- The table is in descending score order. -/
abbrev SortedDesc (l : List LBEntry) : Prop :=
  List.Sorted (fun a b => b.score ≤ a.score) l

/-! ### `SnakeGame._qualifies` (main.py lines 350-355).

    if score <= 0:
        return False
    if not self.scores or len(self.scores) < MAX_SCORES:
        return True
    return score > self.scores[-1]["score"]
-/
def qualifies (scores : List LBEntry) (score : Int) : Bool :=
  if score ≤ 0 then
    false
  else if scores = [] ∨ scores.length < MAX_SCORES then
    true
  else
    -- `scores[-1]` on the (necessarily non-empty) list; the `none`
    -- arm is unreachable because the previous branch caught `[]`.
    match scores.getLast? with
    | some e => decide (e.score < score)
    | none => false

/-! ### Name entry (main.py lines 239, 387-399) -/

/-- The 37-symbol charset of `_ui_change_letter`:
`[*(chr(ord('A')+i) for i in range(26)), *[str(i) for i in range(10)], ' ']`. -/
def charset : List Char :=
  ((List.range 26).map fun i => Char.ofNat ('A'.toNat + i))
    ++ ((List.range 10).map fun i => Char.ofNat ('0'.toNat + i))
    ++ [' ']

/-- Python's `str.strip()`: drop whitespace from both ends. -/
def pyStrip (cs : List Char) : List Char :=
  ((cs.dropWhile Char.isWhitespace).reverse.dropWhile Char.isWhitespace).reverse

/-- The committed name, from `SnakeGame._commit_score` line 364:
`name = "".join(self.entry_name).strip() or "AAAA"`
(an empty — i.e. falsy — stripped string is replaced by `"AAAA"`). -/
def commitName (entry_name : List Char) : List Char :=
  let s := pyStrip entry_name
  if s = [] then ['A', 'A', 'A', 'A'] else s

/-! ### `SnakeGame._commit_score` (main.py lines 363-374) -/

/-- Screen states of the state machine (`self.state` strings). -/
inductive Mode
  | menu | playing | paused | gameover | topcelebrate | enter_score | post_submit
deriving DecidableEq, Repr

/-- Result of `_commit_score`: the table after the in-memory update,
the screen mode afterwards, and whether an exception escaped
(`save_scores` has no `except` clause — `try/finally` only removes the
temp file and re-raises — and `_commit_score` and all its callers up
to `run()` have no handler either, so `raised = true` means the
exception propagates out of the frame loop). -/
structure CommitResult where
  scores : List LBEntry
  mode : Mode
  raised : Bool
deriving DecidableEq, Repr

/-- Shallow embedding of `_commit_score` (main.py lines 363-374),
with the fallibility of the durable write made explicit by `saveFails`.

    name = "".join(self.entry_name).strip() or "AAAA"
    self.scores.append({"name": name, "score": self.score})
    self.scores.sort(key=lambda x: x["score"], reverse=True)
    self.scores = self.scores[:MAX_SCORES]
    save_scores(SAVE_PATH, self.scores)     # may raise
    self.state = "post_submit"              # skipped if save raised

The timer fields (`post_until`, `start_need_neutral`) are outside the
scope of the claims and are omitted. -/
def commit_score (saveFails : Bool) (entry_name : List Char) (score : Int)
    (scores : List LBEntry) (mode : Mode) : CommitResult :=
  let scores1 := (sortDesc (scores ++ [⟨commitName entry_name, score⟩])).take MAX_SCORES
  if saveFails then ⟨scores1, mode, true⟩
  else ⟨scores1, Mode.post_submit, false⟩

/-! ### Persistence: `load_scores` / `save_scores` (main.py lines 74-101).

The parsed JSON document is modelled by an explicit syntax tree
covering the shapes the loader distinguishes. -/

/-- A JSON scalar sitting in a record field: a string or an int. -/
inductive JVal
  | s (v : List Char)
  | i (v : Int)
deriving DecidableEq, Repr

/-- One element of the on-disk array: a dict (with optional `"name"`
and `"score"` fields) or something that is not a dict (on which
`it.get` raises `AttributeError`). -/
inductive JItem
  | dict (name : Option JVal) (score : Option JVal)
  | notDict
deriving DecidableEq, Repr

/-- The whole parsed document: a list, or some other JSON value. -/
inductive JDoc
  | list (items : List JItem)
  | notList
deriving DecidableEq, Repr

/-- What `open` + `json.load` can produce: an I/O or parse error, or a
parsed document. -/
inductive LoadInput
  | ioError
  | ok (d : JDoc)
deriving DecidableEq, Repr

/-- Python's `str(v)` on a record field value. -/
def pyStr : JVal → List Char
  | .s v => v
  | .i v => (toString v).data

/-- Decimal digit run accumulator for `int(str)`. -/
def digitsVal : List Char → Nat → Option Nat
  | [], acc => some acc
  | c :: rest, acc =>
    if c.isDigit then digitsVal rest (acc * 10 + (c.toNat - '0'.toNat))
    else none

/-- Python's `int(str)`: optional sign then a non-empty digit run,
surrounding whitespace ignored; anything else raises (`none`).
(Underscore digit separators are not modelled.) -/
def pyIntOfStr (cs : List Char) : Option Int :=
  match pyStrip cs with
  | [] => none
  | '-' :: rest =>
    match rest with
    | [] => none
    | _ => (digitsVal rest 0).map fun n => -(n : Int)
  | '+' :: rest =>
    match rest with
    | [] => none
    | _ => (digitsVal rest 0).map fun n => (n : Int)
  | l => (digitsVal l 0).map fun n => (n : Int)

/-- Python's `int(v)` on a record field value (`none` = raises). -/
def pyInt : JVal → Option Int
  | .i v => some v
  | .s v => pyIntOfStr v

/-- One iteration of the load loop (main.py lines 81-83):
`name = str(it.get("name", ""))[:4]`, `score = int(it.get("score", 0))`;
`none` = the iteration raised. -/
def load_item : JItem → Option LBEntry
  | .notDict => none
  | .dict n s =>
    let nameV := n.getD (JVal.s [])
    let scoreV := s.getD (JVal.i 0)
    match pyInt scoreV with
    | none => none
    | some sc => some ⟨(pyStr nameV).take 4, sc⟩

/-- The `for it in data` loop: builds the sanitised list, aborting the
whole load (via the enclosing `except`) if any record raises. -/
def load_items : List JItem → Option (List LBEntry)
  | [] => some []
  | it :: rest =>
    match load_item it with
    | none => none
    | some e =>
      match load_items rest with
      | none => none
      | some out => some (e :: out)

/-- Shallow embedding of `load_scores` (main.py lines 74-88).

    try:
        with open(path, ...) as f:
            data = json.load(f)
        if isinstance(data, list):
            out = []
            for it in data:
                name = str(it.get("name", ""))[:4]
                score = int(it.get("score", 0))
                out.append({"name": name, "score": score})
            out.sort(key=lambda x: x["score"], reverse=True)
            return out[:MAX_SCORES]
    except Exception:
        pass
    return []
-/
def load_scores : LoadInput → List LBEntry
  | .ioError => []
  | .ok .notList => []
  | .ok (.list items) =>
    match load_items items with
    | none => []
    | some out => (sortDesc out).take MAX_SCORES

/-- The document that `save_scores` (main.py lines 90-101) durably
writes and a later `load_scores` parses back: `json.dump` of the list
of `{"name": str, "score": int}` records.  (The atomic
temp-file-then-rename mechanics affect only crash behaviour, not the
round-tripped content.) -/
def save_scores (scores : List LBEntry) : LoadInput :=
  .ok (.list (scores.map fun e => .dict (some (.s e.name)) (some (.i e.score))))

/-! ### Input arbitration (`SnakeGame.handle_input_game`, lines 281-306) -/

/-- Snapshot of the held direction keys (`pygame.key.get_pressed()`,
each field already the `or` of the arrow key and its WASD alternate). -/
structure KeySnap where
  up : Bool
  down : Bool
  left : Bool
  right : Bool
deriving DecidableEq, Repr

/-- Snapshot of the joystick: whether one is connected (`self.js`)
and the two raw axis readings.  Axis values are modelled as rationals. -/
structure JoySnap where
  present : Bool
  ax_h : ℚ
  ax_v : ℚ
deriving DecidableEq, Repr

def AXIS_THRESH : ℚ := 6 / 10    -- 0.6

/-- The candidate direction `want` computed by `handle_input_game`
(main.py lines 283-303) before the reversal guard:

    want = self.next_dir
    keys = pygame.key.get_pressed()
    if keys[K_UP] or keys[K_w]:      want = (0, -1)
    elif keys[K_DOWN] or keys[K_s]:  want = (0, 1)
    elif keys[K_LEFT] or keys[K_a]:  want = (-1, 0)
    elif keys[K_RIGHT] or keys[K_d]: want = (1, 0)
    if self.js:
        ax_h = self.js.get_axis(AXIS_H)
        ax_v = -self.js.get_axis(AXIS_V)
        if abs(ax_h) > abs(ax_v):
            if ax_h <= -AXIS_THRESH:   want = (-1, 0)
            elif ax_h >= AXIS_THRESH:  want = ( 1, 0)
        else:
            if ax_v <= -AXIS_THRESH:   want = (0, -1)
            elif ax_v >= AXIS_THRESH:  want = (0,  1)
-/
def input_candidate (keys : KeySnap) (js : JoySnap) (next_dir : Cell) : Cell :=
  let want : Cell := next_dir
  let want : Cell :=
    if keys.up then (0, -1)
    else if keys.down then (0, 1)
    else if keys.left then (-1, 0)
    else if keys.right then (1, 0)
    else want
  if js.present then
    let ax_h := js.ax_h
    let ax_v := -js.ax_v
    if |ax_v| < |ax_h| then
      if ax_h ≤ -AXIS_THRESH then (-1, 0)
      else if AXIS_THRESH ≤ ax_h then (1, 0)
      else want
    else
      if ax_v ≤ -AXIS_THRESH then (0, -1)
      else if AXIS_THRESH ≤ ax_v then (0, 1)
      else want
  else want

/-- The reversal guard and store (main.py lines 305-306):

    if (want[0] != -self.dir[0]) or (want[1] != -self.dir[1]):
        self.next_dir = want

returns the value of `self.next_dir` after the poll. -/
def handle_input_game (keys : KeySnap) (js : JoySnap) (dir next_dir : Cell) : Cell :=
  let want := input_candidate keys js next_dir
  if want.1 ≠ -dir.1 ∨ want.2 ≠ -dir.2 then want else next_dir

/-! ### Lemmas about the stable descending sort -/

theorem mem_insertDesc {x e : LBEntry} {l : List LBEntry} :
    x ∈ insertDesc e l ↔ x = e ∨ x ∈ l := by
  induction l with
  | nil => simp [insertDesc]
  | cons y ys ih =>
    unfold insertDesc
    by_cases h : e.score ≤ y.score
    · rw [if_pos h]
      simp only [List.mem_cons, ih]
      tauto
    · rw [if_neg h]
      simp only [List.mem_cons]

theorem sorted_insertDesc {e : LBEntry} {l : List LBEntry} (h : SortedDesc l) :
    SortedDesc (insertDesc e l) := by
  induction l with
  | nil => simp [insertDesc, SortedDesc]
  | cons y ys ih =>
    unfold SortedDesc at h ⊢
    rw [List.sorted_cons] at h
    unfold insertDesc
    by_cases he : e.score ≤ y.score
    · rw [if_pos he, List.sorted_cons]
      refine ⟨?_, ih h.2⟩
      intro b hb
      rcases mem_insertDesc.mp hb with rfl | hb
      · exact he
      · exact h.1 b hb
    · rw [if_neg he, List.sorted_cons]
      refine ⟨?_, List.sorted_cons.mpr h⟩
      intro b hb
      rcases List.mem_cons.mp hb with rfl | hb
      · exact le_of_lt (lt_of_not_le he)
      · exact le_trans (h.1 b hb) (le_of_lt (lt_of_not_le he))

theorem sortDesc_sorted_aux (l : List LBEntry) :
    ∀ acc, SortedDesc acc →
      SortedDesc (l.foldl (fun acc e => insertDesc e acc) acc) := by
  induction l with
  | nil => intro acc h; simpa using h
  | cons e rest ih =>
    intro acc h
    simpa using ih (insertDesc e acc) (sorted_insertDesc h)

/-- The sort produces a descending table. -/
theorem sortDesc_sorted (l : List LBEntry) : SortedDesc (sortDesc l) :=
  sortDesc_sorted_aux l [] (by simp [SortedDesc])

theorem mem_sortDesc_aux (l : List LBEntry) :
    ∀ acc x, (x ∈ l.foldl (fun acc e => insertDesc e acc) acc ↔ x ∈ l ∨ x ∈ acc) := by
  induction l with
  | nil => intro acc x; simp
  | cons e rest ih =>
    intro acc x
    simp only [List.foldl_cons, ih, mem_insertDesc, List.mem_cons]
    tauto

/-- The sort is a permutation as far as membership is concerned. -/
theorem mem_sortDesc {x : LBEntry} {l : List LBEntry} :
    x ∈ sortDesc l ↔ x ∈ l := by
  simpa using mem_sortDesc_aux l [] x

theorem insertDesc_append (e : LBEntry) (acc : List LBEntry)
    (h : ∀ x ∈ acc, e.score ≤ x.score) : insertDesc e acc = acc ++ [e] := by
  induction acc with
  | nil => rfl
  | cons y ys ih =>
    unfold insertDesc
    rw [if_pos (h y (by simp))]
    rw [ih fun x hx => h x (by simp [hx])]
    rfl

theorem sortDesc_of_sorted_aux (l : List LBEntry) :
    ∀ acc, SortedDesc (acc ++ l) →
      l.foldl (fun acc e => insertDesc e acc) acc = acc ++ l := by
  induction l with
  | nil => intro acc _; simp
  | cons e rest ih =>
    intro acc h
    have h1 : ∀ x ∈ acc, e.score ≤ x.score := by
      intro x hx
      exact (List.pairwise_append.mp h).2.2 x hx e (by simp)
    show rest.foldl _ (insertDesc e acc) = acc ++ e :: rest
    rw [insertDesc_append e acc h1]
    have h2 : SortedDesc ((acc ++ [e]) ++ rest) := by
      unfold SortedDesc at h ⊢
      simpa [List.append_assoc] using h
    rw [ih (acc ++ [e]) h2]
    simp

/-- A table that is already in descending order is a fixed point of
the (stable) sort. -/
theorem sortDesc_of_sorted {l : List LBEntry} (h : SortedDesc l) : sortDesc l = l := by
  simpa using sortDesc_of_sorted_aux l [] (by simpa using h)

/-- The length/score/growth accounting invariant of the simulation:
`len(snake) = 4 + 2*score - grow` (`grow ≥ 0` holds by the `Nat` type). -/
def SnakeLenInv (g : GState) : Prop :=
  (g.snake.length : ℤ) = 4 + 2 * (g.score : ℤ) - (g.grow : ℤ)

/-! ## Claim theorems -/

/-- Claim C1 (counterexample).  The claim says that when pending growth
is zero and the new head equals the current tail cell (and no other
body cell), the tail is excluded from the occupancy test and no
`Collided` outcome is emitted.  In the state below the snake occupies
the 2×2 block `(1,1),(0,1),(0,0),(1,0)` (head `(1,1)`, tail `(1,0)`),
`grow = 0`, and the queued direction `(0,-1)` sends the head exactly
onto the tail cell, which is on the board and is no other body cell —
yet `step` emits `Collided`, because line 316 tests
`new_head in self.snake` against the whole body, tail included. -/
theorem C1_counterexample :
    (newHead ⟨[(1,1),(0,1),(0,0),(1,0)], (1,0), (0,-1), (5,5), 0, 0⟩ = (1,0)
      ∧ List.getLast? [((1:ℤ),(1:ℤ)),(0,1),(0,0),(1,0)] = some (1,0)
      ∧ (∀ c ∈ List.dropLast [((1:ℤ),(1:ℤ)),(0,1),(0,0),(1,0)], c ≠ (1,0)))
    ∧ stepG [] ⟨[(1,1),(0,1),(0,0),(1,0)], (1,0), (0,-1), (5,5), 0, 0⟩
        = StepRes.collided := by
  decide

/-- Claim C1 (amended).  The tail cell is NOT excluded from the
self-collision membership test: whenever the computed new head cell
lies anywhere on the current body — the tail cell included, and
regardless of the pending-growth counter — `step` emits `Collided`,
the head is not prepended and the tail is not removed. -/
theorem C1_amended (draws : List Cell) (g : GState)
    (h : newHead g ∈ g.snake) : stepG draws g = StepRes.collided := by
  rcases hs : g.snake with _ | ⟨head, rest⟩
  · simp [stepG, hs]
  · have hnh : newHead g = (head.1 + g.next_dir.1, head.2 + g.next_dir.2) := by
      simp [newHead, hs]
    rw [hs, hnh] at h
    simp only [stepG, hs]
    by_cases hb : head.1 + g.next_dir.1 < 0 ∨ (GRID_W : Int) ≤ head.1 + g.next_dir.1
        ∨ head.2 + g.next_dir.2 < 0 ∨ (GRID_H : Int) ≤ head.2 + g.next_dir.2
    · rw [if_pos hb]
    · rw [if_neg hb, if_pos h]

/-- Claim C1 (witness for the amended theorem), at the counterexample
state: the new head `(1,0)` is on the body, and `step` collides. -/
theorem C1_amended_witness :
    stepG [] ⟨[(1,1),(0,1),(0,0),(1,0)], (1,0), (0,-1), (5,5), 0, 0⟩
      = StepRes.collided :=
  C1_amended [] _ (by decide)

/-- Claim C2.  `random_empty_cell` (main.py lines 63-67) draws in-grid
cells forever until one is outside `blocked`; when `blocked` covers the
whole grid, no sequence of draws — however long — ever produces a
result, i.e. the `while True` loop never terminates.  The code contains
no full-board check and no `BoardFull` outcome at all, so the behaviour
the claim describes does not exist in the code; this matches the spec's
own note that rejection sampling on a full board is a latent bug of the
original design. -/
theorem C2_full_board_never_returns (blocked : List Cell)
    (hfull : ∀ c, inGrid c → c ∈ blocked)
    (draws : List Cell) (hdraws : ∀ c ∈ draws, inGrid c) :
    random_empty_cell blocked draws = none := by
  induction draws with
  | nil => rfl
  | cons c rest ih =>
    unfold random_empty_cell
    rw [if_pos (hfull c (hdraws c (by simp)))]
    exact ih fun d hd => hdraws d (by simp [hd])

/-- Every on-board cell is an element of `allCells`. -/
theorem mem_allCells_of_inGrid {c : Cell} (h : inGrid c) : c ∈ allCells := by
  obtain ⟨h1, h2, h3, h4⟩ := h
  have hw : ((GRID_W : Nat) : Int) = 21 := by decide
  have hh : ((GRID_H : Nat) : Int) = 12 := by decide
  rw [hw] at h2
  rw [hh] at h4
  have hx : c.1.toNat ∈ List.range GRID_W :=
    List.mem_range.mpr (show c.1.toNat < 21 by omega)
  have hy : c.2.toNat ∈ List.range GRID_H :=
    List.mem_range.mpr (show c.2.toNat < 12 by omega)
  have hmem : ((c.1.toNat : Int), (c.2.toNat : Int)) ∈ allCells :=
    List.mem_flatMap.mpr ⟨c.1.toNat, hx, List.mem_map.mpr ⟨c.2.toNat, hy, rfl⟩⟩
  have e : ((c.1.toNat : Int), (c.2.toNat : Int)) = c := by
    have e1 := Int.toNat_of_nonneg h1
    have e2 := Int.toNat_of_nonneg h3
    cases c
    simp only at e1 e2 ⊢
    rw [e1, e2]
  rwa [e] at hmem

/-- Claim C2 (witness): with the full board blocked, two concrete
in-grid draws both fail and the sampler returns nothing. -/
theorem C2_witness :
    random_empty_cell allCells [((3:ℤ),(4:ℤ)), ((0:ℤ),(0:ℤ))] = none :=
  C2_full_board_never_returns allCells (fun _ h => mem_allCells_of_inGrid h)
    _ (by decide)

/-- Claim C8.  The Playing-state frame loop (main.py lines 732-735)
adds the frame delta to the accumulator and then runs one simulation
tick per full `STEP_MS` contained in it: entered with accumulator
`a + d` (prior value `a < STEP_MS` plus elapsed `d ≥ 0`), exactly
`(a + d) / STEP_MS` ticks fire and the accumulator afterwards is
`(a + d) % STEP_MS` — the remainder is retained, never discarded. -/
theorem C8_fixed_step (a d : Nat) (h : a < STEP_MS) :
    clock_ticks (a + d) = ((a + d) / STEP_MS, (a + d) % STEP_MS) :=
  clock_ticks_eq (a + d)

/-- Claim C8 (witness): a 100 ms carry-over plus a 400 ms frame yields
three ticks and a 50 ms remainder. -/
theorem C8_witness :
    clock_ticks (100 + 400) = ((100 + 400) / STEP_MS, (100 + 400) % STEP_MS) :=
  C8_fixed_step 100 400 (by decide)

/-- Claim C3 (counterexample).  The claim asserts that `qualifies`
"returns true for any score whenever the table holds fewer than 10
entries" — but the `score <= 0` check runs first: on the empty table
(size 0 < 10) a score of 0 does not qualify. -/
theorem C3_counterexample :
    ([] : List LBEntry).length < MAX_SCORES ∧ qualifies [] 0 = false := by
  decide

/-- Claim C3 (amended).  `qualifies(score)` is false for every
score ≤ 0 — this check takes precedence over the table-size check —
and for positive scores it is true when the table has fewer than 10
entries, and otherwise true iff the score strictly exceeds the last
(minimum, since the table is kept sorted descending) entry's score. -/
theorem C3_amended (scores : List LBEntry) (score : Int) :
    qualifies scores score = true ↔
      (0 < score ∧ (scores.length < MAX_SCORES
        ∨ ∃ e, scores.getLast? = some e ∧ e.score < score)) := by
  unfold qualifies
  by_cases h0 : score ≤ 0
  · rw [if_pos h0]
    simp only [Bool.false_eq_true, false_iff]
    rintro ⟨hpos, -⟩
    omega
  · rw [if_neg h0]
    by_cases h1 : scores = [] ∨ scores.length < MAX_SCORES
    · rw [if_pos h1]
      simp only [true_iff]
      refine ⟨by omega, Or.inl ?_⟩
      rcases h1 with rfl | h1
      · decide
      · exact h1
    · rw [if_neg h1]
      push_neg at h1
      obtain ⟨e, he⟩ : ∃ e, scores.getLast? = some e := by
        cases hs : scores.getLast? with
        | none => exact absurd (List.getLast?_eq_none_iff.mp hs) h1.1
        | some e => exact ⟨e, rfl⟩
      rw [he]
      simp only [decide_eq_true_eq]
      constructor
      · intro hlt
        exact ⟨by omega, Or.inr ⟨e, rfl, hlt⟩⟩
      · rintro ⟨-, hlen | ⟨e', he', hlt⟩⟩
        · exact absurd hlen (by omega)
        · cases he'
          exact hlt

/-- Claim C4 (counterexample).  The claim says a failed durable save
during commit "does not raise/terminate".  But `save_scores` has no
`except` clause (its `try/finally` only deletes the temp file and
re-raises) and neither `_commit_score` nor any caller up to `run()`
catches, so a failing save escapes `_commit_score`: `raised = true`
and the `self.state = "post_submit"` line is never reached (the mode
stays `enter_score`). -/
theorem C4_counterexample :
    (commit_score true ['A','A','A','A'] 5 [] Mode.enter_score).raised = true
    ∧ (commit_score true ['A','A','A','A'] 5 [] Mode.enter_score).mode
        = Mode.enter_score := by
  decide

/-- Claim C4 (amended).  A save failure propagates out of
`_commit_score` (it is not caught, so it terminates the frame loop
rather than being merely reported); however the in-memory table is
appended to, stable-sorted descending and truncated to capacity
BEFORE the save attempt, so at the moment of the raise — exactly as on
success — it holds the newly committed, sorted, truncated contents. -/
theorem C4_amended (saveFails : Bool) (entry : List Char) (score : Int)
    (scores : List LBEntry) (mode : Mode) :
    (commit_score saveFails entry score scores mode).scores
      = (sortDesc (scores ++ [⟨commitName entry, score⟩])).take MAX_SCORES
    ∧ (commit_score saveFails entry score scores mode).raised = saveFails
    ∧ SortedDesc (commit_score saveFails entry score scores mode).scores
    ∧ (commit_score saveFails entry score scores mode).scores.length ≤ MAX_SCORES := by
  have hsorted : SortedDesc ((sortDesc (scores ++ [⟨commitName entry, score⟩])).take MAX_SCORES) :=
    List.Pairwise.sublist (List.take_sublist _ _) (sortDesc_sorted _)
  have hlen : ((sortDesc (scores ++ [⟨commitName entry, score⟩])).take MAX_SCORES).length
      ≤ MAX_SCORES := List.length_take_le _ _
  cases saveFails with
  | false => exact ⟨rfl, rfl, hsorted, hlen⟩
  | true => exact ⟨rfl, rfl, hsorted, hlen⟩

/-- A record the load loop accepts always carries a name of at most 4
characters (it was produced by `str(...)[:4]`). -/
theorem load_item_name_le {it : JItem} {e : LBEntry}
    (h : load_item it = some e) : e.name.length ≤ 4 := by
  cases it with
  | notDict => cases h
  | dict n s =>
    simp only [load_item] at h
    cases hsc : pyInt (s.getD (JVal.i 0)) with
    | none => rw [hsc] at h; cases h
    | some sc =>
      rw [hsc] at h
      cases h
      exact List.length_take_le _ _

/-- Every entry of a successfully loaded list has a clipped name. -/
theorem load_items_name_le {items : List JItem} {out : List LBEntry}
    (h : load_items items = some out) : ∀ e ∈ out, e.name.length ≤ 4 := by
  induction items generalizing out with
  | nil =>
    cases h
    simp
  | cons it rest ih =>
    unfold load_items at h
    cases hit : load_item it with
    | none => rw [hit] at h; cases h
    | some e0 =>
      rw [hit] at h
      cases hr : load_items rest with
      | none => rw [hr] at h; cases h
      | some out0 =>
        rw [hr] at h
        cases h
        intro e he
        rcases List.mem_cons.mp he with rfl | he
        · exact load_item_name_le hit
        · exact ih hr e he

/-- Claim C5.  `load_scores` fails open and sanitises: an I/O or parse
error, a non-list document, or any malformed record (a non-dict
element, or a score that `int(...)` rejects — exactly the inputs on
which the loop raises, i.e. `load_items = none`) yields the empty
table; and every table it returns has all names clipped to at most 4
characters (scores are integers by construction), is sorted descending
by score whatever the on-disk order was, and has at most 10 entries. -/
theorem C5_load_fails_open :
    load_scores LoadInput.ioError = []
    ∧ load_scores (LoadInput.ok JDoc.notList) = []
    ∧ (∀ items, load_items items = none →
        load_scores (LoadInput.ok (JDoc.list items)) = [])
    ∧ (∀ inp, ∀ e ∈ load_scores inp, e.name.length ≤ 4)
    ∧ (∀ inp, SortedDesc (load_scores inp))
    ∧ (∀ inp, (load_scores inp).length ≤ MAX_SCORES) := by
  refine ⟨rfl, rfl, ?_, ?_, ?_, ?_⟩
  · intro items h
    simp [load_scores, h]
  · intro inp e he
    cases inp with
    | ioError => cases he
    | ok d =>
      cases d with
      | notList => cases he
      | list items =>
        revert he
        simp only [load_scores]
        cases hl : load_items items with
        | none => intro he; cases he
        | some out =>
          intro he
          exact load_items_name_le hl e (mem_sortDesc.mp (List.mem_of_mem_take he))
  · intro inp
    cases inp with
    | ioError => exact List.Pairwise.nil
    | ok d =>
      cases d with
      | notList => exact List.Pairwise.nil
      | list items =>
        simp only [load_scores]
        cases hl : load_items items with
        | none => exact List.Pairwise.nil
        | some out =>
          exact List.Pairwise.sublist (List.take_sublist _ _) (sortDesc_sorted out)
  · intro inp
    cases inp with
    | ioError => exact Nat.le_of_lt (by decide)
    | ok d =>
      cases d with
      | notList => exact Nat.le_of_lt (by decide)
      | list items =>
        simp only [load_scores]
        cases hl : load_items items with
        | none => exact Nat.le_of_lt (by decide)
        | some out => exact List.length_take_le _ _

/-- Claim C5 (witness): a document whose single record is not a dict
makes the loop raise, and the loader returns the empty table. -/
theorem C5_witness :
    load_scores (LoadInput.ok (JDoc.list [JItem.notDict])) = [] :=
  C5_load_fails_open.2.2.1 [JItem.notDict] rfl

/-- Loading back the exact records `save_scores` wrote reproduces the
saved list verbatim, provided every saved name is at most 4 characters. -/
theorem load_items_save (T : List LBEntry) (hn : ∀ e ∈ T, e.name.length ≤ 4) :
    load_items (T.map fun e => JItem.dict (some (JVal.s e.name)) (some (JVal.i e.score)))
      = some T := by
  induction T with
  | nil => rfl
  | cons e rest ih =>
    have h1 : load_item (JItem.dict (some (JVal.s e.name)) (some (JVal.i e.score)))
        = some ⟨e.name, e.score⟩ := by
      unfold load_item
      simp only [Option.getD_some, pyInt, pyStr]
      rw [List.take_of_length_le (hn e (by simp))]
    simp only [List.map_cons, load_items, h1, ih fun x hx => hn x (by simp [hx])]

/-- Claim C6.  Save-then-load round trip: any in-memory table that
commits can produce — sorted descending (ties in insertion order,
which the stable sort preserves as-is), at most 10 entries, names of
at most 4 characters — is reproduced identically by writing it with
`save_scores` and reading it back with `load_scores`. -/
theorem C6_round_trip (T : List LBEntry) (hs : SortedDesc T)
    (hlen : T.length ≤ MAX_SCORES) (hn : ∀ e ∈ T, e.name.length ≤ 4) :
    load_scores (save_scores T) = T := by
  simp only [save_scores, load_scores]
  rw [load_items_save T hn]
  show (sortDesc T).take MAX_SCORES = T
  rw [sortDesc_of_sorted hs, List.take_of_length_le hlen]

/-- Claim C6 (witness): a concrete two-entry committed table survives
the round trip unchanged. -/
theorem C6_witness :
    load_scores (save_scores [⟨['A','B'], 5⟩, ⟨['C'], 3⟩])
      = [⟨['A','B'], 5⟩, ⟨['C'], 3⟩] :=
  C6_round_trip _ (by decide) (by decide) (by decide)

/-- Claim C7.  The reversal guard of `handle_input_game`: for any
current heading `dir`, any key/joystick snapshot and any previously
queued `next_dir` (which, by the same guard, is never the negation of
the heading), the candidate direction is stored iff it is not the
exact negation `(-dir.1, -dir.2)` of the heading; a rejected candidate
leaves the queued direction unchanged, and the stored value is never
the negation of the heading. -/
theorem C7_reversal_guard (keys : KeySnap) (js : JoySnap) (dir next_dir : Cell)
    (hnd : next_dir ≠ (-dir.1, -dir.2)) :
    handle_input_game keys js dir next_dir ≠ (-dir.1, -dir.2)
    ∧ (input_candidate keys js next_dir = (-dir.1, -dir.2) →
        handle_input_game keys js dir next_dir = next_dir)
    ∧ (input_candidate keys js next_dir ≠ (-dir.1, -dir.2) →
        handle_input_game keys js dir next_dir = input_candidate keys js next_dir) := by
  unfold handle_input_game
  by_cases hw : input_candidate keys js next_dir = (-dir.1, -dir.2)
  · have hcond : ¬((input_candidate keys js next_dir).1 ≠ -dir.1
        ∨ (input_candidate keys js next_dir).2 ≠ -dir.2) := by
      rw [hw]
      simp
    rw [if_neg hcond]
    exact ⟨hnd, fun _ => rfl, fun hne => absurd hw hne⟩
  · have hcond : (input_candidate keys js next_dir).1 ≠ -dir.1
        ∨ (input_candidate keys js next_dir).2 ≠ -dir.2 := by
      by_contra hc
      push_neg at hc
      exact hw (Prod.ext hc.1 hc.2)
    rw [if_pos hcond]
    exact ⟨hw, fun he => absurd he hw, fun _ => rfl⟩

/-- Claim C7 (witness): heading right `(1,0)` with the stick held hard
left (candidate `(-1,0)`, the exact negation), the queued direction
`(1,0)` is left unchanged. -/
theorem C7_witness :
    handle_input_game ⟨false, false, false, false⟩ ⟨true, -1, 0⟩
      ((1 : ℤ), (0 : ℤ)) ((1 : ℤ), (0 : ℤ)) = ((1 : ℤ), (0 : ℤ)) :=
  (C7_reversal_guard _ _ _ _ (by decide)).2.1
    (by norm_num [input_candidate, AXIS_THRESH])

/-- Stripping only ever removes characters: the result is a sublist. -/
theorem pyStrip_sublist (l : List Char) : List.Sublist (pyStrip l) l := by
  unfold pyStrip
  have d1 : List.Sublist (l.dropWhile Char.isWhitespace) l := List.dropWhile_sublist _
  have d2 : List.Sublist
      ((l.dropWhile Char.isWhitespace).reverse.dropWhile Char.isWhitespace)
      (l.dropWhile Char.isWhitespace).reverse := List.dropWhile_sublist _
  have d3 := d2.reverse
  rw [List.reverse_reverse] at d3
  exact d3.trans d1

/-- A buffer consisting only of blanks strips to the empty string. -/
theorem pyStrip_eq_nil_of_all_space {l : List Char} (h : ∀ c ∈ l, c = ' ') :
    pyStrip l = [] := by
  unfold pyStrip
  have h1 : l.dropWhile Char.isWhitespace = [] :=
    List.dropWhile_eq_nil_iff.mpr fun x hx => by
      rw [h x hx]
      decide
  rw [h1]
  rfl

/-- Claim C9 (counterexample).  The claim says a buffer with trailing
blank slots still commits as a 4-character name.  Committing the
buffer `['A','B',' ',' ']` (score 5, empty table) stores the entry
`{"name": "AB", "score": 5}` — `"AB  ".strip()` removed the trailing
spaces, so the committed name has 2 characters, not 4. -/
theorem C9_counterexample :
    (commit_score false ['A', 'B', ' ', ' '] 5 [] Mode.enter_score).scores
      = [⟨['A', 'B'], 5⟩]
    ∧ (['A', 'B'] : List Char).length ≠ 4 := by
  decide

/-- Claim C9 (amended).  A committed name is the stripped join of the
4-slot buffer: it is non-empty, has AT MOST 4 characters (fewer when
the buffer has leading/trailing blanks), all drawn from the charset
[A–Z, 0–9, space]; an entirely blank buffer commits as "AAAA". -/
theorem C9_amended (entry : List Char) (h4 : entry.length = 4)
    (hcs : ∀ c ∈ entry, c ∈ charset) :
    commitName entry ≠ []
    ∧ (commitName entry).length ≤ 4
    ∧ (∀ c ∈ commitName entry, c ∈ charset)
    ∧ ((∀ c ∈ entry, c = ' ') → commitName entry = ['A', 'A', 'A', 'A']) := by
  simp only [commitName]
  by_cases hnil : pyStrip entry = []
  · rw [if_pos hnil]
    exact ⟨by decide, by decide, by decide, fun _ => rfl⟩
  · rw [if_neg hnil]
    refine ⟨hnil, ?_, ?_, ?_⟩
    · have hle := (pyStrip_sublist entry).length_le
      omega
    · intro c hc
      exact hcs c ((pyStrip_sublist entry).subset hc)
    · intro hall
      exact absurd (pyStrip_eq_nil_of_all_space hall) hnil

/-- Claim C9 (witness for the amended theorem), at the counterexample
buffer: the committed name "AB" is non-empty and at most 4 characters. -/
theorem C9_witness :
    commitName ['A', 'B', ' ', ' '] ≠ []
    ∧ (commitName ['A', 'B', ' ', ' ']).length ≤ 4 :=
  ⟨(C9_amended ['A', 'B', ' ', ' '] (by decide) (by decide)).1,
   (C9_amended ['A', 'B', ' ', ' '] (by decide) (by decide)).2.1⟩

/-- Claim C10.  Starting from `reset`, the accounting invariant
`len(snake) = 4 + 2*score - grow` holds after every non-terminal tick
(`grow ≥ 0` holds by its `Nat` type): `reset` establishes it and
`step` preserves it through all three non-terminal branches (eat:
length +1, score +1, grow +1; pending growth: length +1, grow −1;
plain move: insert + pop, length unchanged).  Consequently whenever
the pending growth has drained back to 0 the settled length is
`4 + 2*score` — each food consumed adds exactly 2 cells, not 1. -/
theorem C10_length_invariant :
    (∀ draws g, reset draws = some g → SnakeLenInv g)
    ∧ (∀ draws g g', SnakeLenInv g → stepG draws g = StepRes.ok g' → SnakeLenInv g')
    ∧ (∀ g, SnakeLenInv g → g.grow = 0 →
        (g.snake.length : ℤ) = 4 + 2 * (g.score : ℤ)) := by
  refine ⟨?_, ?_, ?_⟩
  · intro draws g h
    simp only [reset] at h
    split at h
    · cases h
    · cases h
      simp [SnakeLenInv, START_LEN]
  · intro draws g g' hinv hstep
    simp only [SnakeLenInv] at hinv ⊢
    simp only [stepG] at hstep
    split at hstep
    · cases hstep
    · split at hstep
      · cases hstep
      · split at hstep
        · cases hstep
        · split at hstep
          · split at hstep
            · cases hstep
            · cases hstep
              simp only [List.length_cons]
              push_cast
              omega
          · split at hstep
            · cases hstep
              rename_i hgrow
              simp only [List.length_cons]
              push_cast [hgrow]
              omega
            · cases hstep
              simp only [List.length_dropLast, List.length_cons]
              push_cast
              omega
  · intro g h hg
    simp only [SnakeLenInv] at h
    rw [hg] at h
    push_cast at h
    omega

/-- Claim C10 (witness): the state produced by `reset` with one free
draw satisfies the invariant (length 4, score 0, growth 0). -/
theorem C10_witness :
    SnakeLenInv { snake := [((10:ℤ),(6:ℤ)), (9,6), (8,6), (7,6)], dir := (1,0),
                  next_dir := (1,0), food := (0,0), score := 0, grow := 0 } :=
  C10_length_invariant.1 [((0:ℤ), (0:ℤ))] _ (by decide)

end Pumpkin
